import Mathlib

/-!
Shallow embedding of the `base-cacheable-class` caching core.

Source files embedded here:
* `src/base_cacheable_class/cache/in_memory/cache.py` (`InMemoryCache`)
* `src/base_cacheable_class/cache/in_memory/decorator.py` (`InMemoryCacheDecorator`)
* `src/base_cacheable_class/cache/redis/decorator.py` (`RedisCacheDecorator` —
  identical control flow to the in-memory decorator for the properties below)
* `src/base_cacheable_class/base.py` (`BaseCacheableClass`)

Modelling conventions:
* Python argument values are modelled by `PyVal` (ints and strings), with
  `pyRepr` for Python `repr()` and `pyStr` for Python `str()`.
* `time.time()` is passed explicitly as a `Nat` parameter `now`.
* Async is erased: each `await` point is ordinary sequential state passing.
* The regex strings built by `invalidate` use only literal characters, `\(`,
  `\)`, `.*` and `\s*`; they are modelled as token lists (`Tok`) with
  `re.match` semantics (anchored at the start, free at the end).
* Backend exceptions are modelled by `Except String`; the wrapped operation is
  a deterministic sequence `op : Nat → Except η (Option α)` giving the result
  (or raised error) of its n-th invocation within one decorated call.
-/

/-- Model of the Python argument/result values the claims need. -/
inductive PyVal where
  | int (n : Int)
  | str (s : String)
deriving DecidableEq

/-- Python `repr(v)` for `PyVal` (ints bare, strings in single quotes). -/
def pyRepr : PyVal → String
  | .int n => toString n
  | .str s => "\x27" ++ s ++ "\x27"

/-- Python `str(v)` for `PyVal` (ints bare, strings bare — used by the
invalidation fragment `f"'{v!s}'"`). -/
def pyStr : PyVal → String
  | .int n => toString n
  | .str s => s

/-- Python `", ".join`-style separator join (the comma rendering inside
tuple/dict `str()`). -/
def joinSep (sep : String) : List String → String
  | [] => ""
  | [x] => x
  | x :: xs => x ++ sep ++ joinSep sep xs

/-- Python `str(args)` for a tuple of values: `()`, `(r,)` for a 1-tuple
(with Python's trailing comma), `(r1, r2, ...)` otherwise. -/
def pyStrTuple (xs : List PyVal) : String :=
  match xs with
  | [] => "()"
  | [x] => "(" ++ pyRepr x ++ ",)"
  | _ => "(" ++ joinSep ", " (xs.map pyRepr) ++ ")"

/-- Python `str(kwargs)` for a dict: `{'k1': v1, 'k2': v2}` in insertion
order, keys single-quoted, values via `repr`. -/
def pyStrDict (ps : List (String × PyVal)) : String :=
  "\x7b" ++ joinSep ", " (ps.map fun p => "\x27" ++ p.1 ++ "\x27: " ++ pyRepr p.2) ++ "\x7d"

/-- `InMemoryCacheDecorator.key_builder` (identical in `RedisCacheDecorator`):
`f"{func_name}:{str(args)}:{str(kwargs) if kwargs else '{}'}"`. -/
def key_builder (funcName : String) (args : List PyVal) (kwargs : List (String × PyVal)) : String :=
  funcName ++ ":" ++ pyStrTuple args ++ ":" ++
    (if kwargs.isEmpty then "\x7b\x7d" else pyStrDict kwargs)

/-- The key shape exactly as the specification writes it:
`name:(pos1, pos2, ...):{'k1': v1, 'k2': v2}` — positional renderings joined
by comma-space inside plain parentheses (no trailing comma), keyword pairs
joined by comma-space inside braces, `{}` when no keyword arguments. -/
def specKeyShape (funcName : String) (args : List PyVal) (kwargs : List (String × PyVal)) : String :=
  funcName ++ ":(" ++ joinSep ", " (args.map pyRepr) ++ "):" ++
    "\x7b" ++ joinSep ", " (kwargs.map fun p => "\x27" ++ p.1 ++ "\x27: " ++ pyRepr p.2) ++ "\x7d"

/-- The spec's key shape amended with the one deviation the code forces:
a single positional argument is rendered with Python's 1-tuple trailing
comma, `name:(pos1,):{...}`. -/
def specKeyShapeAmended (funcName : String) (args : List PyVal)
    (kwargs : List (String × PyVal)) : String :=
  funcName ++ ":(" ++ joinSep ", " (args.map pyRepr) ++
    (if args.length = 1 then ",)" else ")") ++ ":" ++
    "\x7b" ++ joinSep ", " (kwargs.map fun p => "\x27" ++ p.1 ++ "\x27: " ++ pyRepr p.2) ++ "\x7d"

/-- `CacheItem` from `models/cache_item.py`: a stored value with an optional
absolute expiry instant. -/
structure CacheItem (α : Type) where
  value : α
  expire_at : Option Nat
deriving DecidableEq

/-- The `InMemoryCache.cache` dict: an insertion-ordered association list
with unique keys (dict semantics: first match is the binding). -/
abbrev Store (α : Type) := List (String × CacheItem α)

/-- Dict lookup `self.cache.get(key)`. -/
def storeFind {α : Type} (s : Store α) (k : String) : Option (CacheItem α) :=
  (s.find? fun p => p.1 == k).map Prod.snd

/-- Dict assignment `self.cache[key] = item`: update in place when the key is
present, append otherwise. -/
def storeSet {α : Type} (s : Store α) (k : String) (it : CacheItem α) : Store α :=
  if s.any (fun p => p.1 == k) then s.map (fun p => if p.1 == k then (k, it) else p)
  else s ++ [(k, it)]

/-- Dict removal `self.cache.pop(key, None)` / `del self.cache[key]`. -/
def storeDelete {α : Type} (s : Store α) (k : String) : Store α :=
  s.filter (fun p => ¬ p.1 == k)

/-- `InMemoryCache.set`: `expire_at = now + ttl` when a ttl is given,
unset otherwise. -/
def memSet {α : Type} (s : Store α) (k : String) (v : α) (ttl : Option Nat) (now : Nat) :
    Store α :=
  storeSet s k ⟨v, ttl.map (now + ·)⟩

/-- `InMemoryCache.get`: absent → `None`; live (no expiry, or `now <
expire_at`) → the value; expired → delete the entry and return `None`. -/
def memGet {α : Type} (s : Store α) (k : String) (now : Nat) : Option α × Store α :=
  match storeFind s k with
  | none => (none, s)
  | some it =>
    match it.expire_at with
    | none => (some it.value, s)
    | some e => if now < e then (some it.value, s) else (none, storeDelete s k)

/-- `InMemoryCache.exists`: same liveness test as `get`, also deleting an
expired entry it touches. -/
def memExists {α : Type} (s : Store α) (k : String) (now : Nat) : Bool × Store α :=
  match storeFind s k with
  | none => (false, s)
  | some it =>
    match it.expire_at with
    | none => (true, s)
    | some e => if now < e then (true, s) else (false, storeDelete s k)

/-- Token of the regex language actually used by the invalidation patterns:
literal characters (including the escaped `\(`, `\)`), the wildcard `.*`,
and the whitespace run `\s*`. -/
inductive Tok where
  | lit (c : Char)
  | anyStar
  | wsStar
deriving DecidableEq

/-- `re.match` semantics for a token pattern: does some prefix of `cs` match
the whole pattern? -/
def patMatch : List Tok → List Char → Bool
  | [], _ => true
  | .lit c :: ps1, cs =>
    match cs with
    | [] => false
    | x :: xs => c == x && patMatch ps1 xs
  | .anyStar :: ps1, cs => (List.range (cs.length + 1)).any fun k => patMatch ps1 (cs.drop k)
  | .wsStar :: ps1, cs => (List.range (cs.length + 1)).any fun k =>
      (cs.take k).all (·.isWhitespace) && patMatch ps1 (cs.drop k)

/-- Literal-token run for a character list. -/
def litsL (l : List Char) : List Tok := l.map Tok.lit

/-- Literal-token run for a string. -/
def lits (s : String) : List Tok := litsL s.data

/-- The base invalidation regex `rf"{target}:\(.*\):{{.*}}"`
(that is, `target:\(.*\):{.*}`) as tokens. -/
def basePattern (target : String) : List Tok :=
  lits target ++ [.lit ':', .lit '('] ++ [.anyStar] ++ [.lit ')', .lit ':', .lit '\x7b'] ++
    [.anyStar, .lit '\x7d']

/-- One mapped-parameter regex fragment `rf".*'{k}':\s*'{v!s}'"` as tokens. -/
def kwargFragment (k : String) (v : PyVal) : List Tok :=
  [.anyStar] ++ lits ("\x27" ++ k ++ "\x27:") ++ [.wsStar] ++ lits ("\x27" ++ pyStr v ++ "\x27")

/-- Python `".*".join(fragments)` at the token level. -/
def joinStar : List (List Tok) → List Tok
  | [] => []
  | [f] => f
  | f :: fs => f ++ [.anyStar] ++ joinStar fs

/-- The mapped invalidation regex
`rf"{target}:\(.*\):{{" + ".*".join(kwargs_patterns) + ".*}"` as tokens. -/
def mappedPattern (target : String) (mapped : List (String × PyVal)) : List Tok :=
  lits target ++ [.lit ':', .lit '('] ++ [.anyStar] ++ [.lit ')', .lit ':', .lit '\x7b'] ++
    joinStar (mapped.map fun p => kwargFragment p.1 p.2) ++ [.anyStar, .lit '\x7d']

/-- `mapped_kwargs = {t: kwargs[s] for t, s in param_mapping.items() if s in kwargs}`. -/
def mappedKwargs (paramMapping : List (String × String)) (kwargs : List (String × PyVal)) :
    List (String × PyVal) :=
  paramMapping.filterMap fun p => (kwargs.lookup p.2).map fun v => (p.1, v)

/-- The pattern `InMemoryCacheDecorator.invalidate` builds: the base pattern
when `param_mapping` is absent/empty (Python falsiness of `{}`), otherwise the
mapped pattern over the extracted mapped kwargs. -/
def invalidationPattern (target : String) (paramMapping : List (String × String))
    (kwargs : List (String × PyVal)) : List Tok :=
  if paramMapping.isEmpty then basePattern target
  else mappedPattern target (mappedKwargs paramMapping kwargs)

/-- `InMemoryCache.get_keys` (and `get_keys_regex`, which ignores its first
argument): all keys when no pattern, otherwise the keys `re.match`-ing the
pattern; the store itself is returned unchanged. -/
def memGetKeys {α : Type} (s : Store α) (pat : Option (List Tok)) : List String × Store α :=
  match pat with
  | none => (s.map (·.1), s)
  | some p => ((s.map (·.1)).filter (fun k => patMatch p k.data), s)

/-- A cache backend as the decorator sees it: `get` and `set` may raise
(model: `Except.error`), and both may leave the store in a new state. -/
structure CacheBackend (σ α : Type) where
  get : σ → String → Except String (Option α) × σ
  set : σ → String → α → Nat → Except String Unit × σ

/-- Outcome of one decorated call: the value returned to the caller (or the
propagated business exception), the final backend state, and how many times
the underlying operation was invoked. -/
structure CallRun (σ η α : Type) where
  out : Except η (Option α)
  store : σ
  calls : Nat

/-- The `InMemoryCacheDecorator.__call__` wrapper (`RedisCacheDecorator` is
identical for these properties): build the key; `current_ttl = ttl if ttl is
not None else default_ttl`; try: read the cache, return a non-null hit,
otherwise invoke the operation, store a non-null result, return it; except:
log and invoke the operation once more, returning that invocation's outcome.
`op n` is the n-th invocation of the underlying operation within this call. -/
def cacheWrapper {σ α η : Type} (B : CacheBackend σ α) (funcName : String)
    (args : List PyVal) (kwargs : List (String × PyVal)) (ttl : Option Nat)
    (defaultTtl : Nat) (op : Nat → Except η (Option α)) (s : σ) : CallRun σ η α :=
  let key := key_builder funcName args kwargs
  let currentTtl := ttl.getD defaultTtl
  match B.get s key with
  | (.error _, s1) => { out := op 0, store := s1, calls := 1 }
  | (.ok (some v), s1) => { out := .ok (some v), store := s1, calls := 0 }
  | (.ok none, s1) =>
    match op 0 with
    | .error _ => { out := op 1, store := s1, calls := 2 }
    | .ok none => { out := .ok none, store := s1, calls := 1 }
    | .ok (some v) =>
      match B.set s1 key v currentTtl with
      | (.ok _, s2) => { out := .ok (some v), store := s2, calls := 1 }
      | (.error _, s2) => { out := op 1, store := s2, calls := 2 }

/-- The in-memory backend at instant `now`: `InMemoryCache.get` / `.set`,
which never raise. -/
def memBackend (α : Type) (now : Nat) : CacheBackend (Store α) α :=
  { get := fun s k => (.ok (memGet s k now).1, (memGet s k now).2)
    set := fun s k v ttl => (.ok (), memSet s k v (some ttl) now) }

/-- A decorated call against the in-memory backend at instant `now`. -/
def memCachedCall {α η : Type} (funcName : String) (args : List PyVal)
    (kwargs : List (String × PyVal)) (ttl : Option Nat) (defaultTtl : Nat)
    (op : Nat → Except η (Option α)) (now : Nat) (s : Store α) : CallRun (Store α) η α :=
  cacheWrapper (memBackend α now) funcName args kwargs ttl defaultTtl op s

/-- The `InMemoryCacheDecorator.invalidate` wrapper over the in-memory
backend: build the pattern from the invoking call's keyword arguments,
enumerate matching keys, delete each, then always invoke the underlying
operation and return its outcome (its exception propagates). -/
def invalidateWrapper {α η : Type} (target : String) (paramMapping : List (String × String))
    (kwargs : List (String × PyVal)) (op : Nat → Except η (Option α)) (s : Store α) :
    CallRun (Store α) η α :=
  let pat := invalidationPattern target paramMapping kwargs
  let ks := (memGetKeys s (some pat)).1
  { out := op 0, store := ks.foldl storeDelete s, calls := 1 }

/-- The `InMemoryCacheDecorator.invalidate_all` wrapper: clear the whole
backend, then invoke the underlying operation and return its outcome. -/
def invalidateAllWrapper {α η : Type} (op : Nat → Except η (Option α)) (_s : Store α) :
    CallRun (Store α) η α :=
  { out := op 0, store := [], calls := 1 }

/-- Caller-visible outcome of a `BaseCacheableClass`-decorated method call:
a returned value, a propagated business exception, or the `AttributeError`
raised when `self` has no `_cache_decorator` binding. -/
inductive BOut (η α : Type) where
  | res (v : Option α)
  | exc (e : η)
  | attrError
deriving DecidableEq

/-- View a decorator run's output as a caller-visible outcome. -/
def liftOut {η α : Type} : Except η (Option α) → BOut η α
  | .ok v => .res v
  | .error e => .exc e

/-- The `BaseCacheableClass.cache` / `.invalidate` / `.invalidate_all`
method wrappers: `hasattr(self, "_cache_decorator")` is checked first; when
it fails an `AttributeError` is raised at once — the inner decorator wrapper
(and with it key building, every backend access and the underlying
operation) is never reached. -/
def baseWrap {σ η α : Type} (hasDecorator : Bool) (inner : σ → CallRun σ η α) (s : σ) :
    BOut η α × σ × Nat :=
  if hasDecorator then
    let r := inner s
    (liftOut r.out, r.store, r.calls)
  else (.attrError, s, 0)

/-- A backend whose read always raises (models an unavailable backend). -/
def failGetBackend : CacheBackend Nat PyVal :=
  { get := fun s _ => (.error "backend down", s)
    set := fun s _ _ _ => (.ok (), s) }

/-- A backend whose read misses and whose write always raises. -/
def failSetBackend : CacheBackend Nat PyVal :=
  { get := fun s _ => (.ok none, s)
    set := fun s _ _ _ => (.error "backend down", s) }

/-- Substring containment over character lists (used to state the spec's
"textually contains" condition). -/
def containsSub (pat l : List Char) : Bool := l.tails.any (pat.isPrefixOf ·)

/-- Decomposition predicate for the keyword-segment tail of a mapped
invalidation pattern: the fragments (quoted parameter name, colon, optional
whitespace, quoted `str(value)`) must occur IN MAPPING ORDER, with a closing
brace somewhere after the last; with no mapped pairs only the closing brace
is required. Statement device for the deletion characterization of
`invalidate`. -/
def fragsDecomp : List (String × PyVal) → List Char → Prop
  | [], cs => ∃ c d, cs = c ++ '\x7d' :: d
  | (k, v) :: rest, cs => ∃ b w cs2, w.all (·.isWhitespace) = true ∧
      cs = b ++ (('\x27' :: k.data ++ ['\x27', ':']) ++ (w ++
        (('\x27' :: (pyStr v).data ++ ['\x27']) ++ cs2))) ∧
      fragsDecomp rest cs2

/-! Store lemmas: dict lookup against update, delete, and folded deletes. -/

theorem storeFind_cons {α : Type} (p : String × CacheItem α) (t : Store α) (k : String) :
    storeFind (p :: t) k = if p.1 = k then some p.2 else storeFind t k := by
  by_cases h : p.1 = k
  · rw [storeFind, List.find?_cons_of_pos _ (by simp [h]), if_pos h]
    rfl
  · rw [storeFind, List.find?_cons_of_neg _ (by simp [h]), if_neg h]
    rfl

theorem storeFind_storeSet_self {α : Type} (s : Store α) (k : String) (it : CacheItem α) :
    storeFind (storeSet s k it) k = some it := by
  unfold storeSet
  by_cases h : s.any (fun p => p.1 == k)
  · rw [if_pos h]
    induction s with
    | nil => simp at h
    | cons p t ih =>
      rw [List.map_cons]
      by_cases hp : p.1 = k
      · rw [if_pos (by simp [hp]), storeFind_cons]
        simp
      · rw [if_neg (by simp [hp]), storeFind_cons, if_neg hp]
        apply ih
        simp only [List.any_cons, Bool.or_eq_true] at h
        rcases h with h | h
        · exact absurd (by simpa using h) hp
        · exact h
  · rw [if_neg h]
    induction s with
    | nil => rw [List.nil_append, storeFind_cons]; simp
    | cons p t ih =>
      simp only [List.any_cons, Bool.or_eq_true, not_or] at h
      rw [List.cons_append, storeFind_cons, if_neg (by simpa using h.1)]
      exact ih (by simp [h.2])

theorem storeFind_storeSet_ne {α : Type} (s : Store α) (k k2 : String) (it : CacheItem α)
    (h : k2 ≠ k) : storeFind (storeSet s k it) k2 = storeFind s k2 := by
  unfold storeSet
  by_cases hh : s.any (fun p => p.1 == k)
  · rw [if_pos hh]
    clear hh
    induction s with
    | nil => rfl
    | cons p t ih =>
      rw [List.map_cons]
      by_cases hp : p.1 = k
      · rw [show (if (p.1 == k) = true then (k, it) else p) = (k, it) by simp [hp],
          storeFind_cons, storeFind_cons,
          if_neg (show ¬ ((k, it) : String × CacheItem α).1 = k2 from fun e => h e.symm),
          if_neg (show ¬ p.1 = k2 by rw [hp]; exact fun e => h e.symm)]
        exact ih
      · rw [show (if (p.1 == k) = true then (k, it) else p) = p by simp [hp],
          storeFind_cons, storeFind_cons]
        by_cases hq : p.1 = k2
        · rw [if_pos hq, if_pos hq]
        · rw [if_neg hq, if_neg hq]
          exact ih
  · rw [if_neg hh]
    clear hh
    induction s with
    | nil => rw [List.nil_append, storeFind_cons, if_neg (fun e => h e.symm)]
    | cons p t ih =>
      rw [List.cons_append, storeFind_cons, storeFind_cons]
      by_cases hq : p.1 = k2
      · rw [if_pos hq, if_pos hq]
      · rw [if_neg hq, if_neg hq]
        exact ih

theorem storeDelete_cons {α : Type} (p : String × CacheItem α) (t : Store α) (k : String) :
    storeDelete (p :: t) k = if p.1 = k then storeDelete t k else p :: storeDelete t k := by
  by_cases h : p.1 = k <;> simp [storeDelete, List.filter_cons, h]

theorem storeFind_storeDelete_self {α : Type} (s : Store α) (k : String) :
    storeFind (storeDelete s k) k = none := by
  induction s with
  | nil => rfl
  | cons p t ih =>
    rw [storeDelete_cons]
    by_cases h : p.1 = k
    · rw [if_pos h]; exact ih
    · rw [if_neg h, storeFind_cons, if_neg h]; exact ih

theorem storeFind_storeDelete_ne {α : Type} (s : Store α) (k k2 : String) (h : k2 ≠ k) :
    storeFind (storeDelete s k) k2 = storeFind s k2 := by
  induction s with
  | nil => rfl
  | cons p t ih =>
    rw [storeDelete_cons, storeFind_cons]
    by_cases hp : p.1 = k
    · have hq : ¬ p.1 = k2 := by rw [hp]; exact fun e => h e.symm
      rw [if_pos hp, if_neg hq]
      exact ih
    · rw [if_neg hp, storeFind_cons]
      by_cases hq : p.1 = k2
      · rw [if_pos hq, if_pos hq]
      · rw [if_neg hq, if_neg hq]
        exact ih

theorem storeFind_foldl_delete_none {α : Type} (ks : List String) (s : Store α) (k : String)
    (h : storeFind s k = none) : storeFind (ks.foldl storeDelete s) k = none := by
  induction ks generalizing s with
  | nil => exact h
  | cons k1 t ih =>
    refine ih (storeDelete s k1) ?_
    by_cases e : k = k1
    · subst e; exact storeFind_storeDelete_self s k
    · rw [storeFind_storeDelete_ne s k1 k e]; exact h

theorem storeFind_foldl_delete_mem {α : Type} (ks : List String) (s : Store α) (k : String)
    (h : k ∈ ks) : storeFind (ks.foldl storeDelete s) k = none := by
  induction ks generalizing s with
  | nil => simp at h
  | cons k1 t ih =>
    rcases List.mem_cons.mp h with e | ht
    · subst e
      exact storeFind_foldl_delete_none t (storeDelete s k) k (storeFind_storeDelete_self s k)
    · exact ih (storeDelete s k1) ht

theorem storeFind_foldl_delete_not_mem {α : Type} (ks : List String) (s : Store α) (k : String)
    (h : ¬ k ∈ ks) : storeFind (ks.foldl storeDelete s) k = storeFind s k := by
  induction ks generalizing s with
  | nil => rfl
  | cons k1 t ih =>
    have h1 : k ≠ k1 := fun e => h (by simp [e])
    have ht : ¬ k ∈ t := fun e => h (by simp [e])
    rw [List.foldl_cons, ih (storeDelete s k1) ht, storeFind_storeDelete_ne s k1 k h1]

/-! Matcher lemmas: how the token patterns decompose a matched string. -/

theorem patMatch_nil (cs : List Char) : patMatch [] cs = true := rfl

theorem patMatch_lit_cons (c : Char) (ps : List Tok) (cs : List Char) :
    patMatch (.lit c :: ps) cs = true ↔ ∃ cs1, cs = c :: cs1 ∧ patMatch ps cs1 = true := by
  cases cs with
  | nil =>
    constructor
    · intro hm; exact absurd hm (by simp [patMatch])
    · rintro ⟨cs1, he, -⟩; exact absurd he (by simp)
  | cons x xs =>
    constructor
    · intro hm
      have hm2 : (c == x) = true ∧ patMatch ps xs = true := by
        simpa [patMatch, Bool.and_eq_true] using hm
      refine ⟨xs, ?_, hm2.2⟩
      rw [beq_iff_eq.mp hm2.1]
    · rintro ⟨cs1, he, hp⟩
      obtain ⟨rfl, rfl⟩ : x = c ∧ xs = cs1 := by simpa using he
      simp [patMatch, hp]

theorem patMatch_litsL_append (l : List Char) (ps : List Tok) (cs : List Char) :
    patMatch (litsL l ++ ps) cs = true ↔ ∃ cs1, cs = l ++ cs1 ∧ patMatch ps cs1 = true := by
  induction l generalizing cs with
  | nil => simp [litsL]
  | cons c t ih =>
    rw [show litsL (c :: t) ++ ps = .lit c :: (litsL t ++ ps) from rfl, patMatch_lit_cons]
    constructor
    · rintro ⟨cs1, rfl, hp⟩
      obtain ⟨cs2, rfl, hp2⟩ := (ih cs1).mp hp
      exact ⟨cs2, rfl, hp2⟩
    · rintro ⟨cs1, rfl, hp⟩
      exact ⟨t ++ cs1, rfl, (ih (t ++ cs1)).mpr ⟨cs1, rfl, hp⟩⟩

theorem patMatch_star_cons (ps : List Tok) (cs : List Char) :
    patMatch (.anyStar :: ps) cs = true ↔ ∃ a b, cs = a ++ b ∧ patMatch ps b = true := by
  rw [show patMatch (.anyStar :: ps) cs =
    (List.range (cs.length + 1)).any (fun k => patMatch ps (cs.drop k)) from rfl]
  rw [List.any_eq_true]
  constructor
  · rintro ⟨k, -, hp⟩
    exact ⟨cs.take k, cs.drop k, (List.take_append_drop k cs).symm, hp⟩
  · rintro ⟨a, b, rfl, hp⟩
    refine ⟨a.length, List.mem_range.mpr ?_, ?_⟩
    · simp [Nat.lt_succ_iff]
    · rw [List.drop_left]; exact hp

theorem patMatch_ws_cons (ps : List Tok) (cs : List Char) :
    patMatch (.wsStar :: ps) cs = true ↔
      ∃ a b, cs = a ++ b ∧ a.all (·.isWhitespace) = true ∧ patMatch ps b = true := by
  rw [show patMatch (.wsStar :: ps) cs =
    (List.range (cs.length + 1)).any
      (fun k => (cs.take k).all (·.isWhitespace) && patMatch ps (cs.drop k)) from rfl]
  rw [List.any_eq_true]
  constructor
  · rintro ⟨k, -, hp⟩
    rw [Bool.and_eq_true] at hp
    exact ⟨cs.take k, cs.drop k, (List.take_append_drop k cs).symm, hp.1, hp.2⟩
  · rintro ⟨a, b, rfl, hall, hp⟩
    refine ⟨a.length, List.mem_range.mpr (by simp [Nat.lt_succ_iff]), ?_⟩
    rw [Bool.and_eq_true, List.take_left, List.drop_left]
    exact ⟨hall, hp⟩

/-! Characterization of the invalidation patterns against key strings. -/

theorem basePattern_norm (t : String) : basePattern t =
    litsL (t.data ++ [':', '(']) ++
      (.anyStar :: (litsL [')', ':', '\x7b'] ++ (.anyStar :: [.lit '\x7d']))) := by
  simp [basePattern, lits, litsL, List.map_append, List.append_assoc]

theorem patMatch_basePattern_iff (t : String) (cs : List Char) :
    patMatch (basePattern t) cs = true ↔
      ∃ a b d, cs = t.data ++ ':' :: '(' :: (a ++ ')' :: ':' :: '\x7b' :: (b ++ '\x7d' :: d)) := by
  rw [basePattern_norm, patMatch_litsL_append]
  constructor
  · rintro ⟨cs1, rfl, hp⟩
    rw [patMatch_star_cons] at hp
    obtain ⟨a, b1, rfl, hp⟩ := hp
    rw [patMatch_litsL_append] at hp
    obtain ⟨cs2, rfl, hp⟩ := hp
    rw [patMatch_star_cons] at hp
    obtain ⟨b, d1, rfl, hp⟩ := hp
    rw [patMatch_lit_cons] at hp
    obtain ⟨d, rfl, -⟩ := hp
    exact ⟨a, b, d, by simp [List.append_assoc]⟩
  · rintro ⟨a, b, d, rfl⟩
    refine ⟨a ++ ')' :: ':' :: '\x7b' :: (b ++ '\x7d' :: d), by simp, ?_⟩
    rw [patMatch_star_cons]
    refine ⟨a, _, rfl, ?_⟩
    rw [patMatch_litsL_append]
    refine ⟨b ++ '\x7d' :: d, rfl, ?_⟩
    rw [patMatch_star_cons]
    refine ⟨b, '\x7d' :: d, rfl, ?_⟩
    rw [patMatch_lit_cons]
    exact ⟨d, rfl, rfl⟩

theorem colon_free_prefix_eq : ∀ (l1 l2 r1 r2 : List Char),
    (∀ c ∈ l1, c ≠ ':') → (∀ c ∈ l2, c ≠ ':') →
    l1 ++ ':' :: r1 = l2 ++ ':' :: r2 → l1 = l2 ∧ r1 = r2 := by
  intro l1
  induction l1 with
  | nil =>
    intro l2 r1 r2 _ h2 h
    cases l2 with
    | nil => simpa using h
    | cons d ds =>
      obtain ⟨hd, -⟩ : ':' = d ∧ r1 = ds ++ ':' :: r2 := by simpa using h
      exact absurd hd.symm (h2 d (by simp))
  | cons c cs ih =>
    intro l2 r1 r2 h1 h2 h
    cases l2 with
    | nil =>
      obtain ⟨hd, -⟩ : c = ':' ∧ cs ++ ':' :: r1 = r2 := by simpa using h
      exact absurd hd (h1 c (by simp))
    | cons d ds =>
      obtain ⟨rfl, ht⟩ : c = d ∧ cs ++ ':' :: r1 = ds ++ ':' :: r2 := by simpa using h
      obtain ⟨e1, e2⟩ := ih ds r1 r2 (fun x hx => h1 x (by simp [hx]))
        (fun x hx => h2 x (by simp [hx])) ht
      exact ⟨by rw [e1], e2⟩

theorem pyStrTuple_decomp (args : List PyVal) :
    ∃ X, (pyStrTuple args).data = '(' :: X ++ [')'] :=
  match args with
  | [] => ⟨[], rfl⟩
  | [x] => ⟨(pyRepr x).data ++ [','], by simp [pyStrTuple, String.data_append]⟩
  | x :: y :: t =>
    ⟨(joinSep ", " ((x :: y :: t).map pyRepr)).data, by simp [pyStrTuple, String.data_append]⟩

theorem kwPart_decomp (kwargs : List (String × PyVal)) :
    ∃ Y, (if kwargs.isEmpty then ("\x7b\x7d" : String) else pyStrDict kwargs).data =
      '\x7b' :: Y ++ ['\x7d'] :=
  match kwargs with
  | [] => ⟨[], rfl⟩
  | p :: t =>
    ⟨(joinSep ", " ((p :: t).map fun q => "\x27" ++ q.1 ++ "\x27: " ++ pyRepr q.2)).data, by
      simp [pyStrDict, String.data_append]⟩

theorem key_builder_decomp (n : String) (args : List PyVal) (kwargs : List (String × PyVal)) :
    ∃ X Y, (key_builder n args kwargs).data =
      n.data ++ ':' :: '(' :: (X ++ ')' :: ':' :: '\x7b' :: (Y ++ ['\x7d'])) := by
  obtain ⟨X, hX⟩ := pyStrTuple_decomp args
  obtain ⟨Y, hY⟩ := kwPart_decomp kwargs
  refine ⟨X, Y, ?_⟩
  simp only [List.isEmpty_iff] at hY
  simp [key_builder, String.data_append, hX, hY, List.append_assoc]

theorem mappedPattern_nil (t : String) : mappedPattern t [] = basePattern t := by
  simp [mappedPattern, basePattern, joinStar]

/-- The base invalidation pattern matches every key the key builder produces
for the target function name. -/
theorem basePattern_matches_key (t : String) (args : List PyVal)
    (kwargs : List (String × PyVal)) :
    patMatch (basePattern t) (key_builder t args kwargs).data = true := by
  obtain ⟨X, Y, h⟩ := key_builder_decomp t args kwargs
  rw [patMatch_basePattern_iff]
  exact ⟨X, Y, [], by simpa using h⟩

/-- The base invalidation pattern for one function never matches a key built
for a different function (function names contain no colon). -/
theorem basePattern_not_matches_other (t f : String) (args : List PyVal)
    (kwargs : List (String × PyVal)) (hne : f ≠ t)
    (hf : ∀ c ∈ f.data, c ≠ ':') (ht : ∀ c ∈ t.data, c ≠ ':') :
    patMatch (basePattern t) (key_builder f args kwargs).data = false := by
  rw [Bool.eq_false_iff]
  intro hm
  obtain ⟨a, b, d, hdec⟩ := (patMatch_basePattern_iff t _).mp hm
  obtain ⟨X, Y, hkey⟩ := key_builder_decomp f args kwargs
  have hcomb := hkey.symm.trans hdec
  exact hne (String.ext (colon_free_prefix_eq f.data t.data _ _ hf ht hcomb).1)

/-! Backend access lemmas used by the decorator proofs. -/

theorem memGet_hit_store_eq {α : Type} (s : Store α) (k : String) (now : Nat) (v : α)
    (h : (memGet s k now).1 = some v) : memGet s k now = (some v, s) := by
  cases hf : storeFind s k with
  | none => simp [memGet, hf] at h
  | some it =>
    cases he : it.expire_at with
    | none =>
      have hv : it.value = v := by simpa [memGet, hf, he] using h
      simp [memGet, hf, he, hv]
    | some e =>
      by_cases hlt : now < e
      · have hv : it.value = v := by simpa [memGet, hf, he, hlt] using h
        simp [memGet, hf, he, hlt, hv]
      · simp [memGet, hf, he, hlt] at h

theorem storeFind_some_mem_fst {α : Type} (s : Store α) (k : String) (it : CacheItem α)
    (h : storeFind s k = some it) : k ∈ s.map Prod.fst := by
  induction s with
  | nil => simp [storeFind] at h
  | cons p t ih =>
    rw [storeFind_cons] at h
    by_cases hp : p.1 = k
    · exact List.mem_cons.mpr (Or.inl hp.symm)
    · rw [if_neg hp] at h
      exact List.mem_cons.mpr (Or.inr (ih h))

/-! Claim theorems. -/

/-- C1. If the backend raises during the cache read or the cache write, the
decorator catches the error, falls through to invoking the underlying
operation directly, and the caller receives that invocation's outcome; the
backend error itself is never propagated (the run's output is exactly an
outcome of the underlying operation). -/
theorem cache_backend_error_fail_open {σ α η : Type} (B : CacheBackend σ α)
    (fname : String) (args : List PyVal) (kwargs : List (String × PyVal))
    (ttl : Option Nat) (defaultTtl : Nat) (op : Nat → Except η (Option α)) (s : σ) :
    (∀ e s1, B.get s (key_builder fname args kwargs) = (.error e, s1) →
      cacheWrapper B fname args kwargs ttl defaultTtl op s = ⟨op 0, s1, 1⟩) ∧
    (∀ s1 v e s2, B.get s (key_builder fname args kwargs) = (.ok none, s1) →
      op 0 = .ok (some v) →
      B.set s1 (key_builder fname args kwargs) v (ttl.getD defaultTtl) = (.error e, s2) →
      cacheWrapper B fname args kwargs ttl defaultTtl op s = ⟨op 1, s2, 2⟩) := by
  constructor
  · intro e s1 hget
    simp [cacheWrapper, hget]
  · intro s1 v e s2 hget hop hset
    simp [cacheWrapper, hget, hop, hset]

/-- Witness for C1 at concrete failing backends. -/
theorem cache_backend_error_fail_open_witness :
    cacheWrapper (η := String) failGetBackend "f" [] [] none 60
        (fun _ => .ok (some (PyVal.int 7))) 0 = ⟨.ok (some (PyVal.int 7)), 0, 1⟩ ∧
    cacheWrapper (η := String) failSetBackend "f" [] [] none 60
        (fun _ => .ok (some (PyVal.int 7))) 0 = ⟨.ok (some (PyVal.int 7)), 0, 2⟩ := by
  constructor
  · exact (cache_backend_error_fail_open failGetBackend "f" [] [] none 60
      (fun _ => .ok (some (PyVal.int 7))) 0).1 "backend down" 0 rfl
  · exact (cache_backend_error_fail_open failSetBackend "f" [] [] none 60
      (fun _ => .ok (some (PyVal.int 7))) 0).2 0 (PyVal.int 7) "backend down" 0 rfl rfl rfl

/-- C2 counterexample. The claim says a business error raised by the wrapped
operation is propagated unmodified, never caught, and the operation is not
invoked a second time. In the code the `await func(...)` sits inside the
`try`, so the first error is caught by the `except` clause and the operation
runs again: here the first invocation raises and the second succeeds, the
caller receives the second result (the error is swallowed entirely), and the
operation is invoked twice. -/
theorem op_error_caught_and_retried_cex :
    (cacheWrapper (memBackend PyVal 0) "f" [] [] none 60
        (fun n => if n = 0 then .error "boom" else .ok (some (PyVal.str "ok"))) []) =
      ⟨.ok (some (PyVal.str "ok")), [], 2⟩ := by
  rfl

/-- C2 amended. If the underlying operation raises on a cache miss, the
decorator catches that error, logs, and invokes the operation a second time
outside the `try`; the caller receives the second invocation's outcome (a
second raise propagates unmodified), and no cache entry is stored for the
call (the store stays exactly the post-read state). -/
theorem op_error_retried_outside_try {σ α η : Type} (B : CacheBackend σ α)
    (fname : String) (args : List PyVal) (kwargs : List (String × PyVal))
    (ttl : Option Nat) (defaultTtl : Nat) (op : Nat → Except η (Option α)) (s : σ)
    (s1 : σ) (e : η)
    (hget : B.get s (key_builder fname args kwargs) = (.ok none, s1))
    (hop : op 0 = .error e) :
    cacheWrapper B fname args kwargs ttl defaultTtl op s = ⟨op 1, s1, 2⟩ := by
  simp [cacheWrapper, hget, hop]

/-- Witness for the amended C2: both invocations raise, the second error is
what the caller sees, the store is untouched. -/
theorem op_error_retried_outside_try_witness :
    cacheWrapper (memBackend PyVal 0) "f" [] [] none 60
        (fun n => if n = 0 then .error "boom1" else .error "boom2") [] =
      ⟨.error "boom2", [], 2⟩ := by
  exact op_error_retried_outside_try (memBackend PyVal 0) "f" [] [] none 60
    (fun n => if n = 0 then .error "boom1" else .error "boom2") [] [] "boom1" rfl rfl

/-- C8. If the underlying operation returns the null sentinel on a miss, the
decorator stores nothing (the store is returned exactly as it was), still
returns the null result, and a second identical call re-invokes the
operation in exactly the same way. -/
theorem null_result_not_cached {α η : Type} (fname : String) (args : List PyVal)
    (kwargs : List (String × PyVal)) (ttl : Option Nat) (defaultTtl : Nat) (now : Nat)
    (op : Nat → Except η (Option α)) (s : Store α)
    (hfind : storeFind s (key_builder fname args kwargs) = none)
    (hop : op 0 = .ok none) :
    memCachedCall fname args kwargs ttl defaultTtl op now s = ⟨.ok none, s, 1⟩ ∧
    memCachedCall fname args kwargs ttl defaultTtl op now
      (memCachedCall fname args kwargs ttl defaultTtl op now s).store = ⟨.ok none, s, 1⟩ := by
  have h1 : memCachedCall fname args kwargs ttl defaultTtl op now s = ⟨.ok none, s, 1⟩ := by
    simp [memCachedCall, cacheWrapper, memBackend, memGet, hfind, hop]
  refine ⟨h1, ?_⟩
  rw [h1]
  exact h1

/-- Witness for C8 at a concrete empty store and null-returning operation. -/
theorem null_result_not_cached_witness :
    memCachedCall (α := PyVal) (η := String) "f" [] [] none 60 (fun _ => .ok none) 0 [] =
        ⟨.ok none, [], 1⟩ ∧
    memCachedCall (α := PyVal) (η := String) "f" [] [] none 60 (fun _ => .ok none) 0
        (memCachedCall (α := PyVal) (η := String) "f" [] [] none 60
          (fun _ => .ok none) 0 []).store = ⟨.ok none, [], 1⟩ := by
  exact null_result_not_cached "f" [] [] none 60 0 (fun _ => .ok none) [] rfl rfl

/-- C9. A method decorated through `BaseCacheableClass.cache`, `.invalidate`
or `.invalidate_all`, invoked on an object with no `_cache_decorator`
binding, yields the configuration error immediately: the store is untouched
(so no key was built and no backend operation ran) and the underlying
operation was invoked zero times. -/
theorem uninitialized_binding_raises_before_work {α η : Type} (fname : String)
    (args : List PyVal) (kwargs : List (String × PyVal)) (ttl : Option Nat)
    (defaultTtl : Nat) (target : String) (pm : List (String × String))
    (op : Nat → Except η (Option α)) (now : Nat) (s : Store α) :
    baseWrap false (memCachedCall fname args kwargs ttl defaultTtl op now) s =
        (.attrError, s, 0) ∧
    baseWrap false (invalidateWrapper target pm kwargs op) s = (.attrError, s, 0) ∧
    baseWrap false (invalidateAllWrapper op) s = (.attrError, s, 0) :=
  ⟨rfl, rfl, rfl⟩

/-- C10. In-memory key enumeration never mutates the store and lists keys of
already-expired entries (it ignores time entirely); read-time eviction of an
expired entry is done by `get` and `exists`, which both delete it. -/
theorem get_keys_enumerates_without_eviction {α : Type} :
    (∀ (s : Store α) pat, (memGetKeys s pat).2 = s) ∧
    (∀ (s : Store α) k it, (k, it) ∈ s → k ∈ (memGetKeys s none).1) ∧
    (∀ (s : Store α) p k it, (k, it) ∈ s → patMatch p k.data = true →
      k ∈ (memGetKeys s (some p)).1) ∧
    (∀ (s : Store α) k it e now, storeFind s k = some it → it.expire_at = some e →
      e ≤ now →
      memGet s k now = (none, storeDelete s k) ∧
      memExists s k now = (false, storeDelete s k)) := by
  refine ⟨?_, ?_, ?_, ?_⟩
  · intro s pat
    cases pat <;> rfl
  · intro s k it h
    exact List.mem_map.mpr ⟨(k, it), h, rfl⟩
  · intro s p k it h hp
    exact List.mem_filter.mpr ⟨List.mem_map.mpr ⟨(k, it), h, rfl⟩, hp⟩
  · intro s k it e now hf he hle
    constructor
    · simp [memGet, hf, he, Nat.not_lt.mpr hle]
    · simp [memExists, hf, he, Nat.not_lt.mpr hle]

/-- Witness for C10: a store holding one already-expired entry is enumerated
unchanged, the expired key is listed (also under the base pattern for its
function), and `get` / `exists` at a later instant evict it. -/
theorem get_keys_enumerates_without_eviction_witness :
    (memGetKeys [(key_builder "f" [] [], ⟨PyVal.int 5, some 10⟩)] none).2 =
        [(key_builder "f" [] [], ⟨PyVal.int 5, some 10⟩)] ∧
    key_builder "f" [] [] ∈
      (memGetKeys [(key_builder "f" [] [], ⟨PyVal.int 5, some 10⟩)] none).1 ∧
    key_builder "f" [] [] ∈
      (memGetKeys [(key_builder "f" [] [], ⟨PyVal.int 5, some 10⟩)]
        (some (basePattern "f"))).1 ∧
    memGet [(key_builder "f" [] [], (⟨PyVal.int 5, some 10⟩ : CacheItem PyVal))]
        (key_builder "f" [] []) 10 =
      (none, storeDelete [(key_builder "f" [] [], ⟨PyVal.int 5, some 10⟩)]
        (key_builder "f" [] [])) := by
  refine ⟨(get_keys_enumerates_without_eviction.1) _ none, ?_, ?_, ?_⟩
  · exact (get_keys_enumerates_without_eviction.2.1) _ _ ⟨PyVal.int 5, some 10⟩
      (by simp)
  · exact (get_keys_enumerates_without_eviction.2.2.1) _ (basePattern "f") _
      ⟨PyVal.int 5, some 10⟩ (by simp) (basePattern_matches_key "f" [] [])
  · exact ((get_keys_enumerates_without_eviction.2.2.2) _ _ ⟨PyVal.int 5, some 10⟩ 10 10
      (by simp [storeFind]) rfl (le_refl 10)).1

/-- C4. A decorated call that finds a live cached value returns it with zero
invocations of the underlying operation and leaves the store untouched; and
two decorated calls in immediate succession (same instant, positive effective
ttl, non-null first result) invoke the underlying operation at most once in
total, the second call's output equalling the first's. -/
theorem cache_hit_frame_and_idempotent_read {α η : Type} (fname : String)
    (args : List PyVal) (kwargs : List (String × PyVal)) (ttl : Option Nat)
    (defaultTtl : Nat) (now : Nat) (op : Nat → Except η (Option α)) (s : Store α) :
    (∀ v, (memGet s (key_builder fname args kwargs) now).1 = some v →
      memCachedCall fname args kwargs ttl defaultTtl op now s = ⟨.ok (some v), s, 0⟩) ∧
    (0 < ttl.getD defaultTtl → (∃ v, op 0 = .ok (some v)) →
      (memCachedCall fname args kwargs ttl defaultTtl op now s).calls +
        (memCachedCall fname args kwargs ttl defaultTtl op now
          (memCachedCall fname args kwargs ttl defaultTtl op now s).store).calls ≤ 1 ∧
      (memCachedCall fname args kwargs ttl defaultTtl op now
          (memCachedCall fname args kwargs ttl defaultTtl op now s).store).out =
        (memCachedCall fname args kwargs ttl defaultTtl op now s).out) := by
  have hitlem : ∀ (s2 : Store α) v,
      (memGet s2 (key_builder fname args kwargs) now).1 = some v →
      memCachedCall fname args kwargs ttl defaultTtl op now s2 = ⟨.ok (some v), s2, 0⟩ := by
    intro s2 v h
    have h2 := memGet_hit_store_eq s2 (key_builder fname args kwargs) now v h
    simp [memCachedCall, cacheWrapper, memBackend, h2]
  refine ⟨hitlem s, ?_⟩
  intro httl hop
  obtain ⟨v, hv⟩ := hop
  rcases hms : memGet s (key_builder fname args kwargs) now with ⟨o, s2⟩
  cases o with
  | some w =>
    have hm1 : (memGet s (key_builder fname args kwargs) now).1 = some w := by rw [hms]
    have h1 := hitlem s w hm1
    have hst : (memCachedCall fname args kwargs ttl defaultTtl op now s).store = s := by
      rw [h1]
    rw [hst, h1]
    exact ⟨by simp, rfl⟩
  | none =>
    have h1 : memCachedCall fname args kwargs ttl defaultTtl op now s =
        ⟨.ok (some v), memSet s2 (key_builder fname args kwargs) v
          (some (ttl.getD defaultTtl)) now, 1⟩ := by
      simp [memCachedCall, cacheWrapper, memBackend, hms, hv]
    have hfind2 : storeFind (memSet s2 (key_builder fname args kwargs) v
        (some (ttl.getD defaultTtl)) now) (key_builder fname args kwargs) =
        some ⟨v, some (now + ttl.getD defaultTtl)⟩ :=
      storeFind_storeSet_self _ _ _
    have hget2 : (memGet (memSet s2 (key_builder fname args kwargs) v
        (some (ttl.getD defaultTtl)) now) (key_builder fname args kwargs) now).1 = some v := by
      simp [memGet, hfind2, Nat.lt_add_of_pos_right httl]
    have h2 := hitlem _ v hget2
    have hst : (memCachedCall fname args kwargs ttl defaultTtl op now s).store =
        memSet s2 (key_builder fname args kwargs) v (some (ttl.getD defaultTtl)) now := by
      rw [h1]
    rw [hst, h2, h1]
    exact ⟨by simp, rfl⟩

/-- Witness for C4: a concrete hit (pre-populated live entry) and a concrete
miss-then-hit pair from the empty store. -/
theorem cache_hit_frame_and_idempotent_read_witness :
    memCachedCall (η := String) "f" [] [] none 60 (fun _ => .ok (some (PyVal.int 9))) 0
        [(key_builder "f" [] [], ⟨PyVal.int 2, none⟩)] =
      ⟨.ok (some (PyVal.int 2)), [(key_builder "f" [] [], ⟨PyVal.int 2, none⟩)], 0⟩ ∧
    ((memCachedCall (η := String) "f" [] [] none 60
        (fun _ => .ok (some (PyVal.int 9))) 0 []).calls +
      (memCachedCall (η := String) "f" [] [] none 60 (fun _ => .ok (some (PyVal.int 9))) 0
        (memCachedCall (η := String) "f" [] [] none 60
          (fun _ => .ok (some (PyVal.int 9))) 0 []).store).calls ≤ 1) := by
  constructor
  · exact (cache_hit_frame_and_idempotent_read "f" [] [] none 60 0
      (fun _ => .ok (some (PyVal.int 9))) [(key_builder "f" [] [], ⟨PyVal.int 2, none⟩)]).1
      (PyVal.int 2) (by simp [memGet, storeFind])
  · exact ((cache_hit_frame_and_idempotent_read "f" [] [] none 60 0
      (fun _ => .ok (some (PyVal.int 9))) []).2 (by decide) ⟨PyVal.int 9, rfl⟩).1

/-- C7. An in-memory entry stored without a ttl is returned at every later
instant; an entry stored with ttl `T` at instant `now` is returned strictly
before `now + T` and is treated as absent (and physically removed) from
`now + T` on; consequently a decorated call at instant `0` with ttl `T` is
served from cache at `T - ε` (zero invocations) and re-invokes the
underlying operation at `T + ε`. -/
theorem ttl_expiry_semantics {α η : Type} :
    (∀ (s : Store α) (k : String) (v : α) (now t2 : Nat),
      (memGet (memSet s k v none now) k t2).1 = some v) ∧
    (∀ (s : Store α) (k : String) (v : α) (now T t2 : Nat), t2 < now + T →
      (memGet (memSet s k v (some T) now) k t2).1 = some v) ∧
    (∀ (s : Store α) (k : String) (v : α) (now T t2 : Nat), now + T ≤ t2 →
      memGet (memSet s k v (some T) now) k t2 =
        (none, storeDelete (memSet s k v (some T) now) k) ∧
      storeFind (storeDelete (memSet s k v (some T) now) k) k = none) ∧
    (∀ (fname : String) (args : List PyVal) (kwargs : List (String × PyVal))
      (defaultTtl T ε : Nat) (op : Nat → Except η (Option α)) (v : α) (s : Store α),
      0 < ε → ε ≤ T → storeFind s (key_builder fname args kwargs) = none →
      op 0 = .ok (some v) →
      (memCachedCall fname args kwargs (some T) defaultTtl op 0 s).calls = 1 ∧
      memCachedCall fname args kwargs (some T) defaultTtl op (T - ε)
          (memCachedCall fname args kwargs (some T) defaultTtl op 0 s).store =
        ⟨.ok (some v),
          (memCachedCall fname args kwargs (some T) defaultTtl op 0 s).store, 0⟩ ∧
      (memCachedCall fname args kwargs (some T) defaultTtl op (T + ε)
          (memCachedCall fname args kwargs (some T) defaultTtl op 0 s).store).calls = 1 ∧
      (memCachedCall fname args kwargs (some T) defaultTtl op (T + ε)
          (memCachedCall fname args kwargs (some T) defaultTtl op 0 s).store).out =
        .ok (some v)) := by
  refine ⟨?_, ?_, ?_, ?_⟩
  · intro s k v now t2
    simp [memGet, memSet, storeFind_storeSet_self]
  · intro s k v now T t2 hlt
    simp [memGet, memSet, storeFind_storeSet_self, hlt]
  · intro s k v now T t2 hle
    refine ⟨?_, storeFind_storeDelete_self _ _⟩
    simp [memGet, memSet, storeFind_storeSet_self, Nat.not_lt.mpr hle]
  · intro fname args kwargs defaultTtl T ε op v s hε hεT hfind hop
    have hB : memGet s (key_builder fname args kwargs) 0 = (none, s) := by
      simp [memGet, hfind]
    have h1 : memCachedCall fname args kwargs (some T) defaultTtl op 0 s =
        ⟨.ok (some v),
          memSet s (key_builder fname args kwargs) v (some T) 0, 1⟩ := by
      simp [memCachedCall, cacheWrapper, memBackend, hB, hop]
    have hfind2 : storeFind (memSet s (key_builder fname args kwargs) v (some T) 0)
        (key_builder fname args kwargs) = some ⟨v, some (0 + T)⟩ :=
      storeFind_storeSet_self _ _ _
    have hlt2 : T - ε < 0 + T := by
      rw [Nat.zero_add]
      exact Nat.sub_lt (Nat.lt_of_lt_of_le hε hεT) hε
    have hget2 : memGet (memSet s (key_builder fname args kwargs) v (some T) 0)
        (key_builder fname args kwargs) (T - ε) =
        (some v, memSet s (key_builder fname args kwargs) v (some T) 0) := by
      simp [memGet, hfind2, hlt2]
      omega
    have h2 : memCachedCall fname args kwargs (some T) defaultTtl op (T - ε)
        (memSet s (key_builder fname args kwargs) v (some T) 0) =
        ⟨.ok (some v), memSet s (key_builder fname args kwargs) v (some T) 0, 0⟩ := by
      simp [memCachedCall, cacheWrapper, memBackend, hget2]
    have hge3 : ¬ (T + ε < 0 + T) := by
      rw [Nat.zero_add]
      exact Nat.not_lt.mpr (Nat.le_add_right T ε)
    have hget3 : memGet (memSet s (key_builder fname args kwargs) v (some T) 0)
        (key_builder fname args kwargs) (T + ε) =
        (none, storeDelete (memSet s (key_builder fname args kwargs) v (some T) 0)
          (key_builder fname args kwargs)) := by
      simp [memGet, hfind2, hge3]
    have h3 : memCachedCall fname args kwargs (some T) defaultTtl op (T + ε)
        (memSet s (key_builder fname args kwargs) v (some T) 0) =
        ⟨.ok (some v),
          memSet (storeDelete (memSet s (key_builder fname args kwargs) v (some T) 0)
            (key_builder fname args kwargs))
            (key_builder fname args kwargs) v (some T) (T + ε), 1⟩ := by
      simp [memCachedCall, cacheWrapper, memBackend, hget3, hop]
    refine ⟨?_, ?_, ?_, ?_⟩
    · rw [h1]
    · rw [h1]; exact h2
    · rw [h1]; exact congrArg CallRun.calls h3
    · rw [h1]; exact congrArg CallRun.out h3

/-- Witness for C7 at concrete values (ttl 10, probes at 9, 10 and 11). -/
theorem ttl_expiry_semantics_witness :
    (memGet (memSet ([] : Store PyVal) "k" (PyVal.int 3) none 0) "k" 1000).1 =
        some (PyVal.int 3) ∧
    (memGet (memSet ([] : Store PyVal) "k" (PyVal.int 3) (some 10) 0) "k" 9).1 =
        some (PyVal.int 3) ∧
    storeFind (storeDelete (memSet ([] : Store PyVal) "k" (PyVal.int 3) (some 10) 0) "k")
        "k" = none ∧
    (memCachedCall (η := String) "f" [] [] (some 10) 60
        (fun _ => .ok (some (PyVal.int 3))) 0 []).calls = 1 ∧
    (memCachedCall (η := String) "f" [] [] (some 10) 60 (fun _ => .ok (some (PyVal.int 3))) 11
        (memCachedCall (η := String) "f" [] [] (some 10) 60
          (fun _ => .ok (some (PyVal.int 3))) 0 []).store).calls = 1 := by
  refine ⟨?_, ?_, ?_, ?_, ?_⟩
  · exact (ttl_expiry_semantics (α := PyVal) (η := String)).1 [] "k" (PyVal.int 3) 0 1000
  · exact (ttl_expiry_semantics (α := PyVal) (η := String)).2.1 [] "k" (PyVal.int 3) 0 10 9
      (by decide)
  · exact ((ttl_expiry_semantics (α := PyVal) (η := String)).2.2.1 [] "k" (PyVal.int 3) 0 10
      10 (by decide)).2
  · exact ((ttl_expiry_semantics (α := PyVal) (η := String)).2.2.2 "f" [] [] 60 10 1
      (fun _ => .ok (some (PyVal.int 3))) (PyVal.int 3) [] (by decide) (by decide)
      rfl rfl).1
  · exact ((ttl_expiry_semantics (α := PyVal) (η := String)).2.2.2 "f" [] [] 60 10 1
      (fun _ => .ok (some (PyVal.int 3))) (PyVal.int 3) [] (by decide) (by decide)
      rfl rfl).2.2.1

/-- C6. An invalidation-decorated call with no parameter mapping removes
every stored entry keyed by the target function (whatever its arguments)
and leaves every entry keyed by a different function untouched; the
underlying operation is then invoked exactly once and its outcome returned,
regardless of how many keys were deleted. -/
theorem invalidate_no_mapping_clears_target_function {α η : Type} (target : String)
    (callKwargs : List (String × PyVal)) (op : Nat → Except η (Option α)) (s : Store α) :
    (∀ args kwargs, storeFind (invalidateWrapper target [] callKwargs op s).store
        (key_builder target args kwargs) = none) ∧
    (∀ f args kwargs, f ≠ target → (∀ c ∈ f.data, c ≠ ':') →
      (∀ c ∈ target.data, c ≠ ':') →
      storeFind (invalidateWrapper target [] callKwargs op s).store
          (key_builder f args kwargs) = storeFind s (key_builder f args kwargs)) ∧
    (invalidateWrapper target [] callKwargs op s).out = op 0 ∧
    (invalidateWrapper target [] callKwargs op s).calls = 1 := by
  have hpat : invalidationPattern target [] callKwargs = basePattern target := by
    simp [invalidationPattern]
  have hstore : (invalidateWrapper target [] callKwargs op s).store =
      ((s.map Prod.fst).filter
        (fun k => patMatch (basePattern target) k.data)).foldl storeDelete s := by
    simp [invalidateWrapper, memGetKeys, hpat]
  refine ⟨?_, ?_, rfl, rfl⟩
  · intro args kwargs
    rw [hstore]
    cases hf : storeFind s (key_builder target args kwargs) with
    | none => exact storeFind_foldl_delete_none _ _ _ hf
    | some it =>
      apply storeFind_foldl_delete_mem
      exact List.mem_filter.mpr ⟨storeFind_some_mem_fst _ _ _ hf,
        basePattern_matches_key target args kwargs⟩
  · intro f args kwargs hne hf ht
    rw [hstore]
    apply storeFind_foldl_delete_not_mem
    intro hmem
    have hmatch := (List.mem_filter.mp hmem).2
    rw [basePattern_not_matches_other target f args kwargs hne hf ht] at hmatch
    exact Bool.false_ne_true hmatch

/-- Witness for C6 at a concrete two-entry store: the target function's entry
is gone, the other function's entry survives. -/
theorem invalidate_no_mapping_clears_target_function_witness :
    storeFind (invalidateWrapper (η := String) "g" [] []
        (fun _ => .ok (some (PyVal.int 0)))
        [(key_builder "g" [PyVal.int 1] [], ⟨PyVal.int 1, none⟩),
         (key_builder "h" [] [], ⟨PyVal.int 2, none⟩)]).store
      (key_builder "g" [PyVal.int 1] []) = none ∧
    storeFind (invalidateWrapper (η := String) "g" [] []
        (fun _ => .ok (some (PyVal.int 0)))
        [(key_builder "g" [PyVal.int 1] [], ⟨PyVal.int 1, none⟩),
         (key_builder "h" [] [], ⟨PyVal.int 2, none⟩)]).store
      (key_builder "h" [] []) =
      storeFind
        [(key_builder "g" [PyVal.int 1] [], ⟨PyVal.int 1, none⟩),
         (key_builder "h" [] [], ⟨PyVal.int 2, none⟩)] (key_builder "h" [] []) := by
  constructor
  · exact (invalidate_no_mapping_clears_target_function "g" []
      (fun _ => .ok (some (PyVal.int 0))) _).1 [PyVal.int 1] []
  · exact (invalidate_no_mapping_clears_target_function "g" []
      (fun _ => .ok (some (PyVal.int 0))) _).2.1 "h" [] [] (by decide)
      (by decide) (by decide)

/-- C3 counterexample. With exactly one positional argument the key builder
renders Python's 1-tuple trailing comma: `key_builder("f", (1,))` yields
`f:(1,):{}` while the spec's written shape `name:(pos1, pos2, ...):{...}`
yields `f:(1):{}`; the two differ. -/
theorem key_builder_spec_shape_cex :
    key_builder "f" [PyVal.int 1] [] = "f:(1,):\x7b\x7d" ∧
    specKeyShape "f" [PyVal.int 1] [] = "f:(1):\x7b\x7d" ∧
    key_builder "f" [PyVal.int 1] [] ≠ specKeyShape "f" [PyVal.int 1] [] := by
  refine ⟨by decide, by decide, by decide⟩

/-- C3 amended. The key builder returns exactly the spec's written shape
`name:(pos1, pos2, ...):{'k1': v1, 'k2': v2}` (keyword pairs in insertion
order, `{}` for no keyword arguments), except that a single positional
argument carries Python's 1-tuple trailing comma `(pos1,)`; being a pure
function of (name, args, kwargs), equal inputs always produce the same
key. -/
theorem key_builder_eq_amended_shape (funcName : String) (args : List PyVal)
    (kwargs : List (String × PyVal)) :
    key_builder funcName args kwargs = specKeyShapeAmended funcName args kwargs := by
  apply String.ext
  have hkw : (if kwargs.isEmpty then ("\x7b\x7d" : String) else pyStrDict kwargs).data =
      ('\x7b' :: (joinSep ", "
        (kwargs.map fun p => "\x27" ++ p.1 ++ "\x27: " ++ pyRepr p.2)).data) ++ ['\x7d'] := by
    cases kwargs with
    | nil => rfl
    | cons p t => simp [pyStrDict, String.data_append]
  simp only [List.isEmpty_iff] at hkw
  match args with
  | [] =>
    simp [key_builder, specKeyShapeAmended, pyStrTuple, joinSep, String.data_append, hkw,
      List.append_assoc]
  | [x] =>
    simp [key_builder, specKeyShapeAmended, pyStrTuple, joinSep, String.data_append, hkw,
      List.append_assoc]
  | x :: y :: t =>
    simp [key_builder, specKeyShapeAmended, pyStrTuple, joinSep, String.data_append, hkw,
      List.append_assoc]

/-- Two consecutive wildcards match exactly what one does. -/
theorem patMatch_star_star (ps : List Tok) (cs : List Char) :
    patMatch (.anyStar :: .anyStar :: ps) cs = true ↔
      patMatch (.anyStar :: ps) cs = true := by
  rw [patMatch_star_cons]
  constructor
  · rintro ⟨a, b, rfl, hp⟩
    rw [patMatch_star_cons] at hp
    obtain ⟨a2, b2, rfl, hp2⟩ := hp
    rw [patMatch_star_cons]
    exact ⟨a ++ a2, b2, by simp [List.append_assoc], hp2⟩
  · intro hp
    exact ⟨[], cs, rfl, hp⟩

/-- Peeling one mapped-parameter fragment off the front of a pattern. -/
theorem patMatch_frag_append (k : String) (v : PyVal) (ps : List Tok) (cs : List Char) :
    patMatch (kwargFragment k v ++ ps) cs = true ↔
      ∃ b w cs2, w.all (·.isWhitespace) = true ∧
        cs = b ++ (('\x27' :: k.data ++ ['\x27', ':']) ++ (w ++
          (('\x27' :: (pyStr v).data ++ ['\x27']) ++ cs2))) ∧ patMatch ps cs2 = true := by
  have hnorm : kwargFragment k v ++ ps =
      .anyStar :: (litsL ('\x27' :: k.data ++ ['\x27', ':']) ++
        (.wsStar :: (litsL ('\x27' :: (pyStr v).data ++ ['\x27']) ++ ps))) := by
    simp [kwargFragment, lits, litsL, String.data_append, List.map_append, List.append_assoc]
  rw [hnorm, patMatch_star_cons]
  constructor
  · rintro ⟨b, cs1, rfl, hp⟩
    rw [patMatch_litsL_append] at hp
    obtain ⟨cs2, rfl, hp⟩ := hp
    rw [patMatch_ws_cons] at hp
    obtain ⟨w, cs3, rfl, hw, hp⟩ := hp
    rw [patMatch_litsL_append] at hp
    obtain ⟨cs4, rfl, hp⟩ := hp
    exact ⟨b, w, cs4, hw, by simp [List.append_assoc], hp⟩
  · rintro ⟨b, w, cs2, hw, rfl, hp⟩
    refine ⟨b, _, rfl, ?_⟩
    rw [patMatch_litsL_append]
    refine ⟨_, rfl, ?_⟩
    rw [patMatch_ws_cons]
    refine ⟨w, _, rfl, hw, ?_⟩
    rw [patMatch_litsL_append]
    exact ⟨cs2, rfl, hp⟩

/-- A wildcard in front of a fragment (which itself starts with `.*`) is
absorbed. -/
theorem patMatch_star_frag (k : String) (v : PyVal) (rest : List Tok) (cs : List Char) :
    patMatch (.anyStar :: (kwargFragment k v ++ rest)) cs = true ↔
      patMatch (kwargFragment k v ++ rest) cs = true := by
  have h : kwargFragment k v ++ rest =
      .anyStar :: ((lits ("\x27" ++ k ++ "\x27:") ++ [Tok.wsStar] ++
        lits ("\x27" ++ pyStr v ++ "\x27")) ++ rest) := by
    simp [kwargFragment, List.append_assoc]
  rw [h, patMatch_star_star]

/-- The pattern tail for a non-empty mapped list starts with its first
fragment. -/
theorem joinStar_cons_frag (q : String × PyVal) (rest2 : List (String × PyVal)) :
    ∃ R, joinStar ((q :: rest2).map fun p => kwargFragment p.1 p.2) ++
        [Tok.anyStar, Tok.lit '\x7d'] = kwargFragment q.1 q.2 ++ R := by
  cases rest2 with
  | nil => exact ⟨[Tok.anyStar, Tok.lit '\x7d'], by simp [joinStar]⟩
  | cons r rs =>
    exact ⟨[Tok.anyStar] ++ joinStar ((r :: rs).map fun p => kwargFragment p.1 p.2) ++
      [Tok.anyStar, Tok.lit '\x7d'], by simp [joinStar, List.append_assoc]⟩

/-- The joined fragments followed by `.*}` match a string exactly when the
string decomposes around all the fragments in mapping order (with a closing
brace after the last). -/
theorem patMatch_fragsTail_iff (mapped : List (String × PyVal)) (cs : List Char) :
    patMatch (joinStar (mapped.map fun p => kwargFragment p.1 p.2) ++
        [.anyStar, .lit '\x7d']) cs = true ↔ fragsDecomp mapped cs := by
  induction mapped generalizing cs with
  | nil =>
    rw [show joinStar (([] : List (String × PyVal)).map fun p => kwargFragment p.1 p.2) ++
        [Tok.anyStar, Tok.lit '\x7d'] = [Tok.anyStar, Tok.lit '\x7d'] from rfl]
    rw [patMatch_star_cons]
    constructor
    · rintro ⟨c, cs1, rfl, hp⟩
      rw [patMatch_lit_cons] at hp
      obtain ⟨d, rfl, -⟩ := hp
      exact ⟨c, d, rfl⟩
    · rintro ⟨c, d, rfl⟩
      refine ⟨c, _, rfl, ?_⟩
      rw [patMatch_lit_cons]
      exact ⟨d, rfl, rfl⟩
  | cons p rest ih =>
    obtain ⟨k, v⟩ := p
    cases rest with
    | nil =>
      rw [show joinStar (([(k, v)] : List (String × PyVal)).map fun p =>
          kwargFragment p.1 p.2) = kwargFragment k v from rfl]
      rw [patMatch_frag_append]
      constructor
      · rintro ⟨b, w, cs2, hw, rfl, hp⟩
        rw [patMatch_star_cons] at hp
        obtain ⟨c, cs3, rfl, hp⟩ := hp
        rw [patMatch_lit_cons] at hp
        obtain ⟨d, rfl, -⟩ := hp
        exact ⟨b, w, c ++ '\x7d' :: d, hw, rfl, c, d, rfl⟩
      · rintro ⟨b, w, cs2, hw, rfl, c, d, rfl⟩
        refine ⟨b, w, c ++ '\x7d' :: d, hw, rfl, ?_⟩
        rw [patMatch_star_cons]
        refine ⟨c, _, rfl, ?_⟩
        rw [patMatch_lit_cons]
        exact ⟨d, rfl, rfl⟩
    | cons q rest2 =>
      rw [show joinStar (((k, v) :: q :: rest2).map fun p => kwargFragment p.1 p.2) ++
          [Tok.anyStar, Tok.lit '\x7d'] =
          kwargFragment k v ++ (Tok.anyStar ::
            (joinStar ((q :: rest2).map fun p => kwargFragment p.1 p.2) ++
              [Tok.anyStar, Tok.lit '\x7d'])) from by simp [joinStar, List.append_assoc]]
      rw [patMatch_frag_append]
      obtain ⟨R, hR⟩ := joinStar_cons_frag q rest2
      constructor
      · rintro ⟨b, w, cs2, hw, rfl, hp⟩
        rw [hR, patMatch_star_frag, ← hR] at hp
        exact ⟨b, w, cs2, hw, rfl, (ih cs2).mp hp⟩
      · rintro ⟨b, w, cs2, hw, rfl, hd⟩
        refine ⟨b, w, cs2, hw, rfl, ?_⟩
        rw [hR, patMatch_star_frag, ← hR]
        exact (ih cs2).mpr hd

/-- Characterization of a mapped invalidation pattern with any number of
mapped pairs: it matches a string exactly when the string starts with
`target:(`, later closes the positional segment with `):{`, and the tail
then decomposes around all the quoted fragments in mapping order. -/
theorem patMatch_mappedPattern_iff (t : String) (mapped : List (String × PyVal))
    (cs : List Char) :
    patMatch (mappedPattern t mapped) cs = true ↔
      ∃ a cs1, cs = t.data ++ [':', '('] ++ (a ++ ([')', ':', '\x7b'] ++ cs1)) ∧
        fragsDecomp mapped cs1 := by
  have hnorm : mappedPattern t mapped =
      litsL (t.data ++ [':', '(']) ++
        (.anyStar :: (litsL [')', ':', '\x7b'] ++
          (joinStar (mapped.map fun p => kwargFragment p.1 p.2) ++
            [.anyStar, .lit '\x7d']))) := by
    simp [mappedPattern, lits, litsL, List.map_append, List.append_assoc]
  rw [hnorm, patMatch_litsL_append]
  constructor
  · rintro ⟨cs1, rfl, hp⟩
    rw [patMatch_star_cons] at hp
    obtain ⟨a, cs2, rfl, hp⟩ := hp
    rw [patMatch_litsL_append] at hp
    obtain ⟨cs3, rfl, hp⟩ := hp
    exact ⟨a, cs3, by simp [List.append_assoc],
      (patMatch_fragsTail_iff mapped cs3).mp hp⟩
  · rintro ⟨a, cs1, rfl, hd⟩
    refine ⟨_, rfl, ?_⟩
    rw [patMatch_star_cons]
    refine ⟨a, _, rfl, ?_⟩
    rw [patMatch_litsL_append]
    exact ⟨cs1, rfl, (patMatch_fragsTail_iff mapped cs1).mpr hd⟩

/-- C5 counterexample. The claim's deletion condition (key starts with the
target prefix and textually contains `'target_param': value` with the value
in its default textual form) holds for the stored key
`get_user:():{'user_id': 1}` under `invalidate("get_user",
{"user_id": "user_id"})` invoked with keyword argument `user_id=1`; yet the
entry survives the invalidation, because the code requires the extra quotes
`'user_id': '1'`, which an int-valued keyword never renders. -/
theorem invalidate_mapped_int_value_cex :
    storeFind (invalidateWrapper (η := String) "get_user" [("user_id", "user_id")]
        [("user_id", PyVal.int 1)] (fun _ => .ok none)
        [(key_builder "get_user" [] [("user_id", PyVal.int 1)],
          ⟨PyVal.str "alice", none⟩)]).store
      (key_builder "get_user" [] [("user_id", PyVal.int 1)]) =
      some ⟨PyVal.str "alice", none⟩ ∧
    List.isPrefixOf ("get_user:").data
      (key_builder "get_user" [] [("user_id", PyVal.int 1)]).data = true ∧
    containsSub ("\x27user_id\x27: 1").data
      (key_builder "get_user" [] [("user_id", PyVal.int 1)]).data = true := by
  refine ⟨by decide, by decide, by decide⟩

/-- C5 amended. For a non-empty `param_mapping`, each pair whose source
parameter is present among the invoking call's keyword arguments contributes
a fragment requiring the quoted parameter name, a colon, optional whitespace,
then the value's `str()` rendering wrapped in single quotes (coinciding with
the stored rendering exactly for string-valued parameters); a stored key is
deleted iff, after the `target:(` prefix and a `):{` separator, its tail
decomposes around all these fragments in mapping order — the requirement is
order-sensitive, not merely simultaneous, as the third conjunct shows: a key
holding both mapped values in the opposite order survives. The spec's example
still invokes the underlying `get_user` exactly twice across
miss/hit/update/miss, because `update_user(1)` passes its argument
positionally, so the mapping contributes no fragment and the whole `get_user`
cache is invalidated. -/
theorem invalidate_mapped_deletion_characterization {η : Type}
    (t : String) (pm : List (String × String)) (callKwargs : List (String × PyVal))
    (op : Nat → Except η (Option PyVal)) (s : Store PyVal) (key : String)
    (it : CacheItem PyVal)
    (hpm : pm ≠ [])
    (hfind : storeFind s key = some it) :
    (storeFind (invalidateWrapper t pm callKwargs op s).store key = none ↔
      ∃ a cs1, key.data = t.data ++ [':', '('] ++ (a ++ ([')', ':', '\x7b'] ++ cs1)) ∧
        fragsDecomp (mappedKwargs pm callKwargs) cs1) ∧
    ((memCachedCall (η := String) "get_user" [PyVal.int 1] [] (some 60) 60
        (fun _ => .ok (some (PyVal.str "alice"))) 0 []).calls +
      (memCachedCall (η := String) "get_user" [PyVal.int 1] [] (some 60) 60
        (fun _ => .ok (some (PyVal.str "alice"))) 0
        (memCachedCall (η := String) "get_user" [PyVal.int 1] [] (some 60) 60
          (fun _ => .ok (some (PyVal.str "alice"))) 0 []).store).calls +
      (memCachedCall (η := String) "get_user" [PyVal.int 1] [] (some 60) 60
        (fun _ => .ok (some (PyVal.str "alice"))) 0
        (invalidateWrapper (η := String) "get_user" [("user_id", "user_id")] []
          (fun _ => .ok (some (PyVal.str "updated")))
          (memCachedCall (η := String) "get_user" [PyVal.int 1] [] (some 60) 60
            (fun _ => .ok (some (PyVal.str "alice"))) 0
            (memCachedCall (η := String) "get_user" [PyVal.int 1] [] (some 60) 60
              (fun _ => .ok (some (PyVal.str "alice"))) 0 []).store).store).store).calls
      = 2) ∧
    (storeFind (invalidateWrapper (η := String) "f" [("a", "a"), ("b", "b")]
        [("a", PyVal.str "x"), ("b", PyVal.str "y")] (fun _ => .ok none)
        [(key_builder "f" [] [("b", PyVal.str "y"), ("a", PyVal.str "x")],
          ⟨PyVal.int 0, none⟩)]).store
      (key_builder "f" [] [("b", PyVal.str "y"), ("a", PyVal.str "x")]) =
      some ⟨PyVal.int 0, none⟩) := by
  refine ⟨?_, by decide, by decide⟩
  have hpat : invalidationPattern t pm callKwargs =
      mappedPattern t (mappedKwargs pm callKwargs) := by
    cases pm with
    | nil => exact absurd rfl hpm
    | cons a b => rfl
  have hstore : (invalidateWrapper t pm callKwargs op s).store =
      ((s.map Prod.fst).filter
        (fun k2 => patMatch (mappedPattern t (mappedKwargs pm callKwargs))
          k2.data)).foldl storeDelete s := by
    simp [invalidateWrapper, memGetKeys, hpat]
  rw [hstore]
  constructor
  · intro hdel
    by_cases hm : patMatch (mappedPattern t (mappedKwargs pm callKwargs)) key.data = true
    · exact (patMatch_mappedPattern_iff t (mappedKwargs pm callKwargs) key.data).mp hm
    · exfalso
      have hpres := storeFind_foldl_delete_not_mem
        ((s.map Prod.fst).filter
          (fun k2 => patMatch (mappedPattern t (mappedKwargs pm callKwargs)) k2.data)) s key
        (fun hmem => hm (List.mem_filter.mp hmem).2)
      rw [hpres, hfind] at hdel
      simp at hdel
  · intro hdecomp
    apply storeFind_foldl_delete_mem
    exact List.mem_filter.mpr ⟨storeFind_some_mem_fst s key it hfind,
      (patMatch_mappedPattern_iff t (mappedKwargs pm callKwargs) key.data).mpr hdecomp⟩

/-- Witness for the amended C5: with a string-valued keyword argument the
mapped invalidation really deletes the stored entry, so by the
characterization the key decomposes around the quoted fragment. -/
theorem invalidate_mapped_deletion_characterization_witness :
    ∃ a cs1, (key_builder "get_user" [] [("user_id", PyVal.str "u1")]).data =
        ("get_user" : String).data ++ [':', '('] ++ (a ++ ([')', ':', '\x7b'] ++ cs1)) ∧
      fragsDecomp (mappedKwargs [("user_id", "user_id")] [("user_id", PyVal.str "u1")])
        cs1 := by
  exact (invalidate_mapped_deletion_characterization (η := String) "get_user"
    [("user_id", "user_id")]
    [("user_id", PyVal.str "u1")] (fun _ => Except.ok none)
    [(key_builder "get_user" [] [("user_id", PyVal.str "u1")], ⟨PyVal.int 0, none⟩)]
    (key_builder "get_user" [] [("user_id", PyVal.str "u1")]) ⟨PyVal.int 0, none⟩
    (by decide) rfl).1.mp (by decide)
